import Mathlib

/-!
Verification of the GIF-overlay pipeline (`src/main.rs`).

The development shallowly embeds the core of the program:

* the fixed-point model of `f32` arithmetic used by the alpha transform in
  the loader closure (`(p[3] as f32 * opacity) as u8`, lines 106-112);
* the loader thread closure spawned in `GifOverlay::new` (lines 85-127);
* the consumer state `GifOverlay` (lines 51-67) restricted to the fields the
  pipeline reads or writes (the purely-logging performance-metric fields
  `start_time`, `frames_loaded` progress printing, `last_fps_update`,
  `frame_count`, `last_memory_check` only feed `println!` and are omitted,
  except `frames_loaded` and `total_frame` which the store updates);
* `process_incoming_frames` (lines 147-191), `get_next_available_frame`
  (lines 193-205) and the `eframe::App::update` tick (lines 231-271).

Time (`Instant`, `Duration`) is modelled by natural numbers;
`Duration::saturating_sub` and `Instant::duration_since` are natural-number
subtraction, which saturates at zero exactly as the originals do.
-/

/-- One decoded RGBA pixel as produced by `buffer.pixels()`: four byte
channels `p[0] p[1] p[2] p[3]`. -/
structure Pixel where
  r : ℕ
  g : ℕ
  b : ℕ
  a : ℕ
deriving DecidableEq, Repr

/-! ### A model of `f32` rounding

The loader computes `(p[3] as f32 * opacity) as u8`.  Both operands are
exactly representable (`p[3] ≤ 255`, and `opacity` is itself an `f32`), so
the only inexact step is the `f32` multiplication, which rounds the exact
rational product to 24 bits of significand with IEEE round-to-nearest,
ties-to-even.  We model that rounding over `ℚ` for the non-negative,
non-overflowing range that the program uses (products lie in `[0, 255]`). -/

/-- Round a rational to an integer, half to even (IEEE default tie rule). -/
def evenRound (x : ℚ) : ℤ :=
  let f := ⌊x⌋
  let r := x - f
  if r < 1 / 2 then f
  else if 1 / 2 < r then f + 1
  else if Even f then f else f + 1

/-- Round a non-negative rational to the nearest `f32` value: scale by the
binade `Int.log 2 q` (the unique `e` with `2 ^ e ≤ q < 2 ^ (e + 1)`) so the
significand has 24 bits, and round to nearest, ties to even.  Subnormals
flush the exponent to `-126`; overflow is not modelled since every product
in this program is `≤ 255`. -/
def roundF32 (q : ℚ) : ℚ :=
  if q ≤ 0 then 0
  else
    let e : ℤ := max (Int.log 2 q) (-126)
    (evenRound (q * 2 ^ (23 - e)) : ℚ) * 2 ^ (e - 23)

/-- Rust's `as u8` cast on a (finite, here non-negative) `f32`: truncate
toward zero and saturate to `[0, 255]`. -/
def u8OfF32 (q : ℚ) : ℕ := min 255 (⌊max 0 q⌋).toNat

/-- The alpha computation of the loader closure, line 109:
`let alpha = (p[3] as f32 * opacity) as u8;`. -/
def alphaTransform (a : ℕ) (opacity : ℚ) : ℕ :=
  u8OfF32 (roundF32 ((a : ℚ) * opacity))

/-- The pixel transform of the loader closure, lines 106-112:
`buffer.pixels().flat_map(|p| vec![p[0], p[1], p[2], alpha]).collect()`. -/
def transformPixels (ps : List Pixel) (opacity : ℚ) : List ℕ :=
  ps.flatMap fun p => [p.r, p.g, p.b, alphaTransform p.a opacity]

/-! ### The decoder worker (loader thread closure, lines 85-127) -/

/-- One frame as yielded by `decoder.into_frames()` after a successful
decode: its raw pixel buffer, dimensions and delay. -/
structure DecodedFrame where
  pixels : List Pixel
  width : ℕ
  height : ℕ
  delay : ℕ
deriving DecidableEq, Repr

/-- The channel message type `LoadingMessage`, lines 46-49. -/
inductive LoadingMessage where
  | FrameReady (idx : ℕ) (pixels : List ℕ) (size : ℕ × ℕ) (delay : ℕ)
  | LoadingComplete (total : ℕ)
deriving DecidableEq, Repr

/-- The `FrameReady` message the loop body sends for the frame at `idx`
(lines 101-121). -/
def frameReadyMsg (opacity : ℚ) (idx : ℕ) (f : DecodedFrame) : LoadingMessage :=
  .FrameReady idx (transformPixels f.pixels opacity) (f.width, f.height) f.delay

/-- The `for (idx, frame) in frames.enumerate()` loop of the loader, lines
94-122, threading the `frame_count` variable (`frame_count = idx + 1` on
each iteration); returns the sent messages and the final `frame_count`. -/
def loaderLoop (opacity : ℚ) : List (ℕ × DecodedFrame) → ℕ → List LoadingMessage × ℕ
  | [], fc => ([], fc)
  | (idx, f) :: rest, _ =>
      let (msgs, fc) := loaderLoop opacity rest (idx + 1)
      (frameReadyMsg opacity idx f :: msgs, fc)

/-- Everything the loader thread sends on a successful decode of `frames`:
the enumerated loop followed by `LoadingComplete(frame_count)`
(lines 94-126). -/
def loaderMessages (opacity : ℚ) (frames : List DecodedFrame) : List LoadingMessage :=
  let (msgs, fc) := loaderLoop opacity frames.enum 0
  msgs ++ [.LoadingComplete fc]

/-- The loader thread closure, lines 85-127.  `openResult` is the outcome of
`File::open` / `GifDecoder::new`: `none` means the `.expect` panics and the
thread dies having sent nothing; `some frames` is a successful decode. -/
def loaderThread (opacity : ℚ) (openResult : Option (List DecodedFrame)) :
    List LoadingMessage :=
  match openResult with
  | none => []
  | some frames => loaderMessages opacity frames

/-! ### The consumer: `GifOverlay` state and operations -/

/-- A stored frame (struct `Frame`, lines 41-44): the texture created from
the message's pixel bytes and size, plus the frame delay. -/
structure Frame where
  pixels : List ℕ
  size : ℕ × ℕ
  delay : ℕ
deriving DecidableEq, Repr

/-- The consumer state (struct `GifOverlay`, lines 51-67), restricted to the
fields the pipeline logic reads or writes. -/
structure GifOverlay where
  frames : List (Option Frame)
  current_frame : ℕ
  last_update : ℕ
  scale : ℚ
  opacity : ℚ
  loading_complete : Bool
  first_frame_loaded : Bool
  total_frame : ℕ
  frames_loaded : ℕ
deriving DecidableEq, Repr

namespace GifOverlay

/-- The state built by `GifOverlay::new` (lines 129-145) at instant `now0`,
with opacity clamped to `[0, 1]` and scale floored at `0.1` (lines 76-78). -/
def initState (scale opacity : ℚ) (now0 : ℕ) : GifOverlay where
  frames := []
  current_frame := 0
  last_update := now0
  scale := max scale (1 / 10)
  opacity := min 1 (max 0 opacity)
  loading_complete := false
  first_frame_loaded := false
  total_frame := 0
  frames_loaded := 0

/-- Body of the `while self.frames.len() <= idx { self.frames.push(None) }`
loop, lines 151-153, with an explicit iteration bound so the recursion is
structural: the loop runs at most `idx + 1` times. -/
def growFramesFuel : ℕ → List (Option Frame) → ℕ → List (Option Frame)
  | 0, fs, _ => fs
  | fuel + 1, fs, idx =>
      if fs.length ≤ idx then growFramesFuel fuel (fs ++ [none]) idx else fs

/-- The `while self.frames.len() <= idx { self.frames.push(None) }` loop,
lines 151-153. -/
def growFrames (fs : List (Option Frame)) (idx : ℕ) : List (Option Frame) :=
  growFramesFuel (idx + 1) fs idx

/-- One iteration of the `match message` in `process_incoming_frames`,
lines 149-189.  On `FrameReady` the code guards the flag flip with
`if !self.first_frame_loaded`, but the branch only sets it to `true` (plus a
log line), so the net effect is an unconditional `:= true`. -/
def processMessage (s : GifOverlay) (m : LoadingMessage) : GifOverlay :=
  match m with
  | .FrameReady idx pixels size delay =>
      let fs := (growFrames s.frames idx).set idx (some ⟨pixels, size, delay⟩)
      { s with
        frames := fs
        frames_loaded := s.frames_loaded + 1
        first_frame_loaded := true }
  | .LoadingComplete total =>
      { s with loading_complete := true, total_frame := total }

/-- `process_incoming_frames` (lines 147-191): drain every message pending
on the channel, in order. -/
def process_incoming_frames (s : GifOverlay) (msgs : List LoadingMessage) :
    GifOverlay :=
  msgs.foldl processMessage s

/-- `get_next_available_frame`, lines 193-205, verbatim: note that `start`
is assigned from `next` and nothing changes either before the
`if next == start` test. -/
def get_next_available_frame (s : GifOverlay) : Option ℕ :=
  if s.frames.isEmpty then
    none
  else
    let next := (s.current_frame + 1) % s.frames.length
    let start := next
    if next == start then
      none
    else
      some next

end GifOverlay

/-- What one `update` tick exposes besides the new state: the frame handed
to the renderer (`ui.image`, line 252; `none` is the spinner / no-image
case) and the argument of `ctx.request_repaint_after` if it was called
(lines 265-267). -/
structure TickResult where
  state : GifOverlay
  rendered : Option Frame
  repaint_after : Option ℕ
deriving DecidableEq, Repr

namespace GifOverlay

/-- One `eframe::App::update` tick, lines 232-270: drain the channel, run
the window block (lines 241-257) with `now = Instant::now()` of line 243,
then the repaint block (lines 259-269) with the fresh `now2 =
Instant::now()` of line 262.  `self.frames[self.current_frame]` is Rust
slice indexing, which panics out of bounds; the model returns `none` for
the whole tick in that case.  Note the rendered frame is the binding taken
at line 244, before any cursor advance. -/
def tick (s0 : GifOverlay) (msgs : List LoadingMessage) (now now2 : ℕ) :
    Option TickResult :=
  let s := process_incoming_frames s0 msgs
  let windowResult : Option (GifOverlay × Option Frame) :=
    if s.first_frame_loaded then
      match s.frames[s.current_frame]? with
      | none => none
      | some none => some (s, none)
      | some (some cur) =>
          let s1 :=
            if cur.delay ≤ now - s.last_update then
              match get_next_available_frame s with
              | some nxt => { s with current_frame := nxt, last_update := now }
              | none => s
            else s
          some (s1, some cur)
    else some (s, none)
  match windowResult with
  | none => none
  | some (s1, rendered) =>
      if s1.first_frame_loaded then
        match s1.frames[s1.current_frame]? with
        | none => none
        | some none => some ⟨s1, rendered, none⟩
        | some (some cur) =>
            let t := cur.delay - (now2 - s1.last_update)
            some ⟨s1, rendered, if t = 0 then none else some t⟩
      else some ⟨s1, rendered, none⟩

/-- Iterate `tick` with an empty channel over a list of `(now, now2)`
instants, stopping on a panic. -/
def runTicks (s : GifOverlay) : List (ℕ × ℕ) → Option GifOverlay
  | [] => some s
  | (n, n2) :: rest =>
      match tick s [] n n2 with
      | none => none
      | some r => runTicks r.state rest

end GifOverlay

/-- States reachable by the consumer: the freshly constructed state, plus
anything a successful `update` tick (any pending messages, any instants)
produces. -/
inductive Reachable : GifOverlay → Prop
  | init (scale opacity : ℚ) (now0 : ℕ) :
      Reachable (GifOverlay.initState scale opacity now0)
  | step {s : GifOverlay} {msgs : List LoadingMessage} {now now2 : ℕ}
      {r : TickResult} (hs : Reachable s)
      (ht : GifOverlay.tick s msgs now now2 = some r) :
      Reachable r.state

/-! ### Basic lemmas about the embedded operations -/

namespace GifOverlay

/-- The `if next == start` test in `get_next_available_frame` compares a
value with itself, so the function returns `none` on every state: the
cursor can never advance. -/
theorem get_next_available_frame_eq_none (s : GifOverlay) :
    get_next_available_frame s = none := by
  unfold get_next_available_frame
  split <;> simp

theorem growFramesFuel_eq (fuel : ℕ) :
    ∀ (fs : List (Option Frame)) (idx : ℕ), idx + 1 - fs.length ≤ fuel →
      growFramesFuel fuel fs idx
        = fs ++ List.replicate (idx + 1 - fs.length) none := by
  induction fuel with
  | zero =>
      intro fs idx h
      have : idx + 1 - fs.length = 0 := Nat.le_zero.mp h
      simp [growFramesFuel, this]
  | succ fuel ih =>
      intro fs idx h
      by_cases hlen : fs.length ≤ idx
      · rw [growFramesFuel, if_pos hlen, ih (fs ++ [none]) idx (by simp; omega)]
        have : idx + 1 - fs.length = (idx + 1 - (fs.length + 1)) + 1 := by omega
        simp [this, List.replicate_succ, List.append_assoc]
      · rw [growFramesFuel, if_neg hlen]
        have : idx + 1 - fs.length = 0 := by omega
        simp [this]

/-- The grow loop appends exactly enough empty slots to make index `idx`
addressable (and does nothing if the store is already long enough). -/
theorem growFrames_eq (fs : List (Option Frame)) (idx : ℕ) :
    growFrames fs idx = fs ++ List.replicate (idx + 1 - fs.length) none :=
  growFramesFuel_eq (idx + 1) fs idx (by omega)

@[simp]
theorem process_incoming_frames_nil (s : GifOverlay) :
    process_incoming_frames s [] = s := rfl

@[simp]
theorem process_incoming_frames_cons (s : GifOverlay) (m : LoadingMessage)
    (msgs : List LoadingMessage) :
    process_incoming_frames s (m :: msgs)
      = process_incoming_frames (processMessage s m) msgs := rfl

theorem processMessage_first_frame_loaded (s : GifOverlay) (m : LoadingMessage) :
    s.first_frame_loaded = true → (processMessage s m).first_frame_loaded = true := by
  cases m <;> simp [processMessage]

theorem processMessage_loading_complete (s : GifOverlay) (m : LoadingMessage) :
    s.loading_complete = true → (processMessage s m).loading_complete = true := by
  cases m <;> simp_all [processMessage]

theorem processMessage_current_frame (s : GifOverlay) (m : LoadingMessage) :
    (processMessage s m).current_frame = s.current_frame := by
  cases m <;> simp [processMessage]

theorem drain_current_frame (s : GifOverlay) (msgs : List LoadingMessage) :
    (process_incoming_frames s msgs).current_frame = s.current_frame := by
  induction msgs generalizing s with
  | nil => rfl
  | cons m msgs ih => rw [process_incoming_frames_cons, ih, processMessage_current_frame]

end GifOverlay

namespace GifOverlay

theorem drain_first_frame_loaded (s : GifOverlay) (msgs : List LoadingMessage) :
    s.first_frame_loaded = true →
      (process_incoming_frames s msgs).first_frame_loaded = true := by
  induction msgs generalizing s with
  | nil => exact fun h => h
  | cons m msgs ih =>
      intro h
      rw [process_incoming_frames_cons]
      exact ih _ (processMessage_first_frame_loaded s m h)

theorem drain_loading_complete (s : GifOverlay) (msgs : List LoadingMessage) :
    s.loading_complete = true →
      (process_incoming_frames s msgs).loading_complete = true := by
  induction msgs generalizing s with
  | nil => exact fun h => h
  | cons m msgs ih =>
      intro h
      rw [process_incoming_frames_cons]
      exact ih _ (processMessage_loading_complete s m h)

/-- The state invariant maintained by the consumer: the cursor is still at
its initial position `0` (the advance helper never yields an index), and
the store is non-empty whenever the first-frame flag is up. -/
def Inv (s : GifOverlay) : Prop :=
  s.current_frame = 0 ∧ (s.first_frame_loaded = true → s.frames ≠ [])

theorem Inv_initState (scale opacity : ℚ) (now0 : ℕ) :
    Inv (initState scale opacity now0) := by
  constructor <;> simp [initState]

theorem Inv_processMessage {s : GifOverlay} (m : LoadingMessage) (h : Inv s) :
    Inv (processMessage s m) := by
  obtain ⟨hcur, hne⟩ := h
  cases m with
  | FrameReady idx pixels size delay =>
      refine ⟨by simpa [processMessage] using hcur, fun _ => ?_⟩
      simp only [processMessage]
      intro hnil
      have := congrArg List.length hnil
      rw [List.length_set, growFrames_eq] at this
      simp only [List.length_append, List.length_replicate, List.length_nil] at this
      omega
  | LoadingComplete total =>
      exact ⟨by simpa [processMessage] using hcur, by simpa [processMessage] using hne⟩

theorem Inv_drain {s : GifOverlay} (msgs : List LoadingMessage) (h : Inv s) :
    Inv (process_incoming_frames s msgs) := by
  induction msgs generalizing s with
  | nil => exact h
  | cons m msgs ih => exact ih (Inv_processMessage m h)

end GifOverlay

namespace GifOverlay

/-- While the first frame has not landed, a tick with an empty channel shows
the spinner and changes nothing at all. -/
theorem tick_of_not_first_frame {s : GifOverlay} (now now2 : ℕ)
    (h : s.first_frame_loaded = false) :
    tick s [] now now2 = some ⟨s, none, none⟩ := by
  simp [tick, h]

/-- On any state satisfying the invariant, a tick never panics, and (because
`get_next_available_frame` always answers `none`) the resulting state is
exactly the drained state: the cursor and `last_update` never move. -/
theorem tick_spec {s : GifOverlay} (msgs : List LoadingMessage) (now now2 : ℕ)
    (h : Inv s) :
    ∃ r : TickResult, tick s msgs now now2 = some r ∧
      r.state = process_incoming_frames s msgs := by
  have h1 : Inv (process_incoming_frames s msgs) := Inv_drain msgs h
  obtain ⟨hcur, hne⟩ := h1
  by_cases hf : (process_incoming_frames s msgs).first_frame_loaded = true
  · have hlen : 0 < (process_incoming_frames s msgs).frames.length :=
      List.length_pos.mpr (hne hf)
    obtain ⟨slot, hslot⟩ :
        ∃ slot, (process_incoming_frames s msgs).frames[(process_incoming_frames s msgs).current_frame]? = some slot := by
      rw [hcur]
      exact ⟨_, List.getElem?_eq_getElem hlen⟩
    cases slot with
    | none =>
        exact ⟨⟨process_incoming_frames s msgs, none, none⟩, by
          simp [tick, hf, hslot], rfl⟩
    | some cur =>
        refine ⟨⟨process_incoming_frames s msgs, some cur,
          if cur.delay - (now2 - (process_incoming_frames s msgs).last_update) = 0 then none
          else some (cur.delay - (now2 - (process_incoming_frames s msgs).last_update))⟩, ?_, rfl⟩
        simp [tick, hf, hslot, get_next_available_frame_eq_none]
  · have hf' : (process_incoming_frames s msgs).first_frame_loaded = false :=
      Bool.not_eq_true _ ▸ Bool.eq_false_iff.mpr hf
    exact ⟨⟨process_incoming_frames s msgs, none, none⟩, by simp [tick, hf'], rfl⟩

/-- Every reachable state satisfies the invariant. -/
theorem Inv_of_reachable {s : GifOverlay} (h : Reachable s) : Inv s := by
  induction h with
  | init scale opacity now0 => exact Inv_initState scale opacity now0
  | step hs ht ih =>
      rename_i s' msgs now now2 r
      obtain ⟨r', hr', hstate⟩ := tick_spec msgs now now2 ih
      rw [ht] at hr'
      cases hr'
      rw [hstate]
      exact Inv_drain msgs ih

end GifOverlay

namespace GifOverlay

/-- A state whose first frame has not landed is a fixed point of the
render loop: any number of ticks on an empty channel returns it intact. -/
theorem runTicks_of_not_first_frame {s : GifOverlay} (ts : List (ℕ × ℕ))
    (h : s.first_frame_loaded = false) : runTicks s ts = some s := by
  induction ts with
  | nil => rfl
  | cons t ts ih =>
      obtain ⟨n, n2⟩ := t
      rw [runTicks, tick_of_not_first_frame n n2 h]
      exact ih

end GifOverlay

/-! ### Concrete fixtures used by witnesses and counterexamples -/

/-- A `FrameReady` message for index 0 with a trivial payload. -/
def wMsg : LoadingMessage := .FrameReady 0 [] (1, 1) 100

/-- The frame the store builds from `wMsg`. -/
def wFrame : Frame := ⟨[], (1, 1), 100⟩

/-- The consumer state after draining `wMsg` from the fresh state. -/
def wState : GifOverlay :=
  { GifOverlay.initState 1 1 0 with
    frames := [some wFrame], first_frame_loaded := true, frames_loaded := 1 }

/-- Concretely: the first tick after construction, delivering `wMsg` at
instant 5, stores the frame and schedules a repaint in `100 - 5 = 95`. -/
theorem wState_tick :
    GifOverlay.tick (GifOverlay.initState 1 1 0) [wMsg] 5 5
      = some ⟨wState, some wFrame, some 95⟩ := rfl

/-- `wState` is reachable: construct, then tick once receiving `wMsg`. -/
theorem wState_reachable : Reachable wState :=
  Reachable.step (Reachable.init 1 1 0) wState_tick

/-! ### The claims -/

/-- C6: if opening the image source fails, the loader thread dies having
sent nothing (`loaderThread opacity none = []`), and the consumer stays in
the loading state forever: every sequence of render ticks on the empty
channel returns the freshly constructed state unchanged, with the
first-frame-ready flag still `false`. -/
theorem C6_open_failure_no_messages (opacity scale : ℚ) (now0 : ℕ)
    (ts : List (ℕ × ℕ)) :
    loaderThread opacity none = [] ∧
    GifOverlay.runTicks (GifOverlay.initState scale opacity now0) ts
      = some (GifOverlay.initState scale opacity now0) ∧
    (GifOverlay.initState scale opacity now0).first_frame_loaded = false :=
  ⟨rfl, GifOverlay.runTicks_of_not_first_frame ts rfl, rfl⟩

/-- C7: the first-frame-ready flag and the loading-complete flag are
monotone across any drain: once `true`, no sequence of processed messages
resets them. -/
theorem C7_flags_monotone (s : GifOverlay) (msgs : List LoadingMessage) :
    (s.first_frame_loaded = true →
        (GifOverlay.process_incoming_frames s msgs).first_frame_loaded = true) ∧
    (s.loading_complete = true →
        (GifOverlay.process_incoming_frames s msgs).loading_complete = true) :=
  ⟨GifOverlay.drain_first_frame_loaded s msgs,
   GifOverlay.drain_loading_complete s msgs⟩

/-- Witness for C7 at a concrete flagged state and message list. -/
theorem C7_flags_monotone_witness :
    (GifOverlay.process_incoming_frames
        { wState with loading_complete := true }
        [wMsg, .LoadingComplete 1]).first_frame_loaded = true ∧
    (GifOverlay.process_incoming_frames
        { wState with loading_complete := true }
        [wMsg, .LoadingComplete 1]).loading_complete = true :=
  ⟨(C7_flags_monotone { wState with loading_complete := true }
      [wMsg, .LoadingComplete 1]).1 rfl,
   (C7_flags_monotone { wState with loading_complete := true }
      [wMsg, .LoadingComplete 1]).2 rfl⟩

/-- C8: draining an empty channel is the identity, so a second `drain`
with no new messages pending leaves the whole state — store contents,
cursor and both flags — exactly as the first drain left it. -/
theorem C8_drain_idempotent (s : GifOverlay) (msgs : List LoadingMessage) :
    GifOverlay.process_incoming_frames
        (GifOverlay.process_incoming_frames s msgs) []
      = GifOverlay.process_incoming_frames s msgs := rfl

/-- C10: in every reachable state with the first-frame-ready flag set, the
store is non-empty and the cursor is strictly below the store length, and
the update tick (which indexes the store at the cursor, twice) never hits
the out-of-bounds panic, whatever messages arrive and whatever the clock
reads. -/
theorem C10_cursor_in_bounds {s : GifOverlay} (msgs : List LoadingMessage)
    (now now2 : ℕ) (h : Reachable s) (hf : s.first_frame_loaded = true) :
    s.frames ≠ [] ∧ s.current_frame < s.frames.length ∧
      GifOverlay.tick s msgs now now2 ≠ none := by
  obtain ⟨hcur, hne⟩ := GifOverlay.Inv_of_reachable h
  refine ⟨hne hf, ?_, ?_⟩
  · rw [hcur]
    exact List.length_pos.mpr (hne hf)
  · intro hnone
    obtain ⟨r, hr, _⟩ := GifOverlay.tick_spec msgs now now2 (GifOverlay.Inv_of_reachable h)
    rw [hr] at hnone
    cases hnone

/-- Witness for C10 at the concrete reachable state `wState`. -/
theorem C10_cursor_in_bounds_witness :
    wState.frames ≠ [] ∧ wState.current_frame < wState.frames.length ∧
      GifOverlay.tick wState [] 9 9 ≠ none :=
  C10_cursor_in_bounds [] 9 9 wState_reachable rfl

/-- A fully loaded 3-frame playback state with delays 100, 200, 300 and
`last_update = 0`, as in the spec's cycling example. -/
def s3 : GifOverlay :=
  { GifOverlay.initState 1 1 0 with
    frames := [some ⟨[], (1, 1), 100⟩, some ⟨[], (1, 1), 200⟩, some ⟨[], (1, 1), 300⟩]
    first_frame_loaded := true
    loading_complete := true
    total_frame := 3
    frames_loaded := 3 }

/-- `s3` is reachable: construct at t = 0, then tick once receiving the
three frames and the completion message at t = 0. -/
theorem s3_reachable : Reachable s3 :=
  Reachable.step (Reachable.init 1 1 0)
    (show GifOverlay.tick (GifOverlay.initState 1 1 0)
        [.FrameReady 0 [] (1, 1) 100, .FrameReady 1 [] (1, 1) 200,
         .FrameReady 2 [] (1, 1) 300, .LoadingComplete 3] 0 0
      = some ⟨s3, some ⟨[], (1, 1), 100⟩, some 100⟩ from rfl)

/-- C1: the claim is false of the code, and the code contradicts its own
intent (`get_next_available_frame` is a frame-advance helper whose
`let start = next; if next == start { return None; }` makes it return
`None` unconditionally).  On the spec's own example — 3 frames with delays
100/200/300 ms, cursor 0, `lastTransition = 0` — the advance step at
t = 150 leaves the cursor at 0 and `lastTransition` at 0, where the claim
requires cursor 1 and `lastTransition = 150`; after ticks at 50, 150, 350
and 650 ms the observed cursor sequence is 0,0,0,0, not 0,1,2,0. -/
theorem C1_cursor_never_advances :
    Reachable s3 ∧
    GifOverlay.get_next_available_frame s3 = none ∧
    (GifOverlay.tick s3 [] 150 150).map
        (fun r => (r.state.current_frame, r.state.last_update)) = some (0, 0) ∧
    (GifOverlay.runTicks s3 [(50, 50), (150, 150)]).map
        (fun s => s.current_frame) = some 0 ∧
    (GifOverlay.runTicks s3 [(50, 50), (150, 150), (350, 350)]).map
        (fun s => s.current_frame) = some 0 ∧
    (GifOverlay.runTicks s3 [(50, 50), (150, 150), (350, 350), (650, 650)]).map
        (fun s => s.current_frame) = some 0 :=
  ⟨s3_reachable, rfl, rfl, rfl, rfl, rfl⟩

/-- C5: whenever the cursor is in bounds (which holds in every reachable
state, `C10`) and its slot is empty — or the store is empty and loading has
not produced a first frame — the tick hands the renderer no frame instead
of raising an error. -/
theorem C5_empty_slot_renders_none (s : GifOverlay) (now now2 : ℕ)
    (hb : s.first_frame_loaded = true → s.current_frame < s.frames.length)
    (h : s.frames = [] ∨ s.frames[s.current_frame]? = some none) :
    (GifOverlay.tick s [] now now2).map TickResult.rendered = some none := by
  by_cases hf : s.first_frame_loaded = true
  · rcases h with h | h
    · exfalso
      have := hb hf
      rw [h] at this
      simp at this
    · rw [show GifOverlay.tick s [] now now2 = some ⟨s, none, none⟩ from by
        simp [GifOverlay.tick, hf, h]]
      rfl
  · have hf' : s.first_frame_loaded = false := by
      cases hflag : s.first_frame_loaded
      · rfl
      · exact absurd hflag hf
    rw [GifOverlay.tick_of_not_first_frame now now2 hf']
    rfl

/-- The spec's gap scenario: the store was grown to length 3 with index 1
still empty, and the cursor sits at index 1. -/
def sGap : GifOverlay :=
  { GifOverlay.initState 1 1 0 with
    frames := [some wFrame, none, some ⟨[], (1, 1), 300⟩]
    current_frame := 1
    first_frame_loaded := true
    frames_loaded := 2 }

/-- Witness for C5 on the gap scenario: cursor in bounds, slot 1 empty,
renderer is handed nothing. -/
theorem C5_empty_slot_renders_none_witness :
    (sGap.first_frame_loaded = true → sGap.current_frame < sGap.frames.length) ∧
    (sGap.frames = [] ∨ sGap.frames[sGap.current_frame]? = some none) ∧
    (GifOverlay.tick sGap [] 7 7).map TickResult.rendered = some none :=
  ⟨fun _ => by decide, Or.inr rfl,
   C5_empty_slot_renders_none sGap 7 7 (fun _ => by decide) (Or.inr rfl)⟩

/-- C9: with a frame under the cursor, the saturating time-to-next-frame
the tick computes equals `max 0 (delay - (now - lastTransition))`, and the
repaint request carries exactly that delay (no request at all when it is
zero) — so a redraw is never requested earlier than that delay. -/
theorem C9_time_until_next (s : GifOverlay) (cur : Frame) (now now2 : ℕ)
    (hf : s.first_frame_loaded = true)
    (hslot : s.frames[s.current_frame]? = some (some cur))
    (hmono : s.last_update ≤ now2) :
    ((cur.delay - (now2 - s.last_update) : ℕ) : ℤ)
        = max 0 ((cur.delay : ℤ) - ((now2 : ℤ) - (s.last_update : ℤ))) ∧
    (GifOverlay.tick s [] now now2).map TickResult.repaint_after
        = some (if cur.delay - (now2 - s.last_update) = 0 then none
                else some (cur.delay - (now2 - s.last_update))) := by
  constructor
  · omega
  · rw [show GifOverlay.tick s [] now now2
          = some ⟨s, some cur,
              if cur.delay - (now2 - s.last_update) = 0 then none
              else some (cur.delay - (now2 - s.last_update))⟩ from by
        simp [GifOverlay.tick, hf, hslot, GifOverlay.get_next_available_frame_eq_none]]
    rfl

/-- Witness for C9 at `wState` (delay 100, `lastTransition = 0`) queried at
instant 30: time to next transition is 70 and the repaint is requested in
exactly 70. -/
theorem C9_time_until_next_witness :
    ((wFrame.delay - (30 - wState.last_update) : ℕ) : ℤ)
        = max 0 ((wFrame.delay : ℤ) - ((30 : ℤ) - (wState.last_update : ℤ))) ∧
    (GifOverlay.tick wState [] 30 30).map TickResult.repaint_after
        = some (if wFrame.delay - (30 - wState.last_update) = 0 then none
                else some (wFrame.delay - (30 - wState.last_update))) :=
  C9_time_until_next wState wFrame 30 30 rfl rfl (by decide)

/-- C4: processing `FrameReady(idx, …)` extends the store with empty slots
exactly up to and including `idx` if it was shorter (new length
`max |store| (idx+1)`), stores the decoded frame at `idx`, increments the
frames-loaded counter by one, leaves cursor and the other fields alone, and
leaves the first-frame-ready flag `true` (its very first flip happens here,
and `C7` shows it never reverts). -/
theorem C4_frame_ready_stores (s : GifOverlay) (idx : ℕ) (pixels : List ℕ)
    (size : ℕ × ℕ) (delay : ℕ) :
    (GifOverlay.processMessage s (.FrameReady idx pixels size delay)).frames
        = (s.frames ++ List.replicate (idx + 1 - s.frames.length) none).set idx
            (some ⟨pixels, size, delay⟩) ∧
    (GifOverlay.processMessage s (.FrameReady idx pixels size delay)).frames.length
        = max s.frames.length (idx + 1) ∧
    (GifOverlay.processMessage s (.FrameReady idx pixels size delay)).frames[idx]?
        = some (some ⟨pixels, size, delay⟩) ∧
    (GifOverlay.processMessage s (.FrameReady idx pixels size delay)).frames_loaded
        = s.frames_loaded + 1 ∧
    (GifOverlay.processMessage s (.FrameReady idx pixels size delay)).first_frame_loaded
        = true ∧
    (GifOverlay.processMessage s (.FrameReady idx pixels size delay)).current_frame
        = s.current_frame ∧
    (GifOverlay.processMessage s (.FrameReady idx pixels size delay)).loading_complete
        = s.loading_complete ∧
    (GifOverlay.processMessage s (.FrameReady idx pixels size delay)).total_frame
        = s.total_frame := by
  have hgrow := GifOverlay.growFrames_eq s.frames idx
  have hlen : (GifOverlay.growFrames s.frames idx).length = max s.frames.length (idx + 1) := by
    rw [hgrow]
    simp only [List.length_append, List.length_replicate]
    omega
  have hidx : idx < (GifOverlay.growFrames s.frames idx).length := by
    rw [hlen]
    omega
  refine ⟨?_, ?_, ?_, rfl, rfl, rfl, rfl, rfl⟩
  · simp only [GifOverlay.processMessage, hgrow]
  · simp only [GifOverlay.processMessage, List.length_set]
    exact hlen
  · simp only [GifOverlay.processMessage]
    rw [List.getElem?_set_self (by simpa using hidx)]

/-- Observer: the index carried by a `FrameReady` message. -/
def frameReadyIdx? : LoadingMessage → Option ℕ
  | .FrameReady idx _ _ _ => some idx
  | .LoadingComplete _ => none

/-- Observer: is this message a `LoadingComplete`? -/
def isLoadingComplete : LoadingMessage → Bool
  | .FrameReady _ _ _ _ => false
  | .LoadingComplete _ => true

theorem loaderLoop_enumFrom (o : ℚ) (l : List DecodedFrame) :
    ∀ (k fc : ℕ),
      loaderLoop o (List.enumFrom k l) fc
        = ((List.enumFrom k l).map fun p => frameReadyMsg o p.1 p.2,
           if l = [] then fc else k + l.length) := by
  induction l with
  | nil => intro k fc; simp [List.enumFrom, loaderLoop]
  | cons a l ih =>
      intro k fc
      simp only [List.enumFrom, loaderLoop, ih (k + 1) (k + 1), List.map_cons]
      by_cases h : l = []
      · simp [h]
      · simp only [h, if_false, reduceCtorEq, List.length_cons]
        refine Prod.ext rfl ?_
        simp
        omega

/-- The loader's send sequence in closed form: one `FrameReady` per frame,
in enumeration order, then `LoadingComplete` carrying the frame count. -/
theorem loaderMessages_eq (o : ℚ) (frames : List DecodedFrame) :
    loaderMessages o frames
      = (frames.enum.map fun p => frameReadyMsg o p.1 p.2)
          ++ [.LoadingComplete frames.length] := by
  unfold loaderMessages
  rw [show frames.enum = List.enumFrom 0 frames from rfl, loaderLoop_enumFrom]
  by_cases h : frames = [] <;> simp [h]

/-- C2: for a source that decodes into `N` frames the producer sends
exactly the indices `0, 1, …, N-1` in that order (`List.range N`), exactly
one `LoadingComplete` message and it carries `N`, and that completion
message comes last — including the degenerate `N = 0` case. -/
theorem C2_producer_message_order (o : ℚ) (frames : List DecodedFrame) :
    (loaderMessages o frames).filterMap frameReadyIdx? = List.range frames.length ∧
    (loaderMessages o frames).filter isLoadingComplete
        = [.LoadingComplete frames.length] ∧
    (loaderMessages o frames).getLast? = some (.LoadingComplete frames.length) := by
  rw [loaderMessages_eq]
  refine ⟨?_, ?_, ?_⟩
  · rw [List.filterMap_append, List.filterMap_map]
    rw [show (frameReadyIdx? ∘ fun p : ℕ × DecodedFrame => frameReadyMsg o p.1 p.2)
          = (fun p : ℕ × DecodedFrame => some p.1) from rfl]
    rw [show (fun p : ℕ × DecodedFrame => some p.1)
          = (some ∘ Prod.fst) from rfl, List.filterMap_eq_map]
    simp [List.enum_map_fst, frameReadyIdx?]
  · rw [List.filter_append]
    rw [List.filter_eq_nil_iff.mpr ?_]
    · simp [isLoadingComplete]
    · intro a ha
      obtain ⟨p, _, rfl⟩ := List.mem_map.mp ha
      simp [frameReadyMsg, isLoadingComplete]
  · exact List.getLast?_concat _

/-! ### `f32` rounding lemmas for the alpha transform -/

theorem log2_eq_of_bounds {q : ℚ} {e : ℤ} (hq : 0 < q)
    (h1 : (2:ℚ) ^ e ≤ q) (h2 : q < (2:ℚ) ^ (e + 1)) : Int.log 2 q = e := by
  have hb : 1 < 2 := one_lt_two
  have h1' : ((2:ℕ):ℚ) ^ e ≤ q := by exact_mod_cast h1
  have hle : e ≤ Int.log 2 q := (Int.zpow_le_iff_le_log hb hq).mp h1'
  have hlt : Int.log 2 q < e + 1 := by
    by_contra h
    push_neg at h
    have h2' := (Int.zpow_le_iff_le_log hb hq).mpr h
    have : (2:ℚ) ^ (e + 1) ≤ q := by exact_mod_cast h2'
    exact absurd h2 (not_lt.mpr this)
  omega

theorem roundF32_of_bounds {q : ℚ} {e : ℤ} (hq : 0 < q) (he : -126 ≤ e)
    (h1 : (2:ℚ) ^ e ≤ q) (h2 : q < (2:ℚ) ^ (e + 1)) :
    roundF32 q = (evenRound (q * 2 ^ (23 - e)) : ℚ) * 2 ^ (e - 23) := by
  unfold roundF32
  rw [if_neg (not_le.mpr hq), log2_eq_of_bounds hq h1 h2, max_eq_left he]

theorem evenRound_intCast (n : ℤ) : evenRound (n : ℚ) = n := by
  unfold evenRound
  norm_num

theorem evenRound_add_half_of_odd {n : ℤ} (h : ¬ Even n) :
    evenRound ((n : ℚ) + 1/2) = n + 1 := by
  have hf : ⌊(n : ℚ) + 1/2⌋ = n := by
    rw [Int.floor_eq_iff]
    constructor <;> norm_num
  unfold evenRound
  rw [hf]
  norm_num [h]

/-- The opacity `1082401 * 2⁻²⁵ ≈ 0.0322580635757…`: an exactly
representable `f32` value in `[0, 1]` for which the `f32` product with
alpha 31 rounds up across an integer boundary. -/
def oW : ℚ := 1082401 / 2 ^ 25

/-- `oW` is a fixed point of `f32` rounding, i.e. a representable opacity. -/
theorem roundF32_oW : roundF32 oW = oW := by
  rw [roundF32_of_bounds (e := -5) (by norm_num [oW]) (by norm_num)
        (by norm_num [oW]) (by norm_num [oW])]
  rw [show oW * 2 ^ ((23:ℤ) - (-5)) = ((8659208 : ℤ) : ℚ) by norm_num [oW]]
  rw [evenRound_intCast]
  norm_num [oW]

/-- The exact product `31 * oW = (2²⁵ - 1) / 2²⁵ = 1 - 2⁻²⁵` lies exactly
halfway between the two nearest `f32` values `1 - 2⁻²⁴` and `1`, and the
even-mantissa tie rule picks `1`. -/
theorem roundF32_31_oW : roundF32 ((31:ℚ) * oW) = 1 := by
  rw [show (31:ℚ) * oW = 33554431 / 33554432 by norm_num [oW]]
  rw [roundF32_of_bounds (e := -1) (by norm_num) (by norm_num) (by norm_num)
        (by norm_num)]
  rw [show (33554431 : ℚ) / 33554432 * 2 ^ ((23:ℤ) - (-1))
        = ((16777215 : ℤ) : ℚ) + 1/2 by norm_num]
  rw [evenRound_add_half_of_odd (by decide)]
  norm_num

theorem alphaTransform_31_oW : alphaTransform 31 oW = 1 := by
  unfold alphaTransform
  rw [show ((31:ℕ) : ℚ) * oW = (31:ℚ) * oW by norm_num, roundF32_31_oW]
  unfold u8OfF32
  norm_num

theorem floor_31_oW : ⌊(31:ℚ) * oW⌋ = 0 := by
  rw [Int.floor_eq_iff]
  constructor <;> norm_num [oW]

/-- Counterexample to C3 as stated: with the valid opacity `oW` (an exact
`f32` value in `[0,1]`) and source alpha `31`, the code outputs alpha `1`
while `⌊31 * oW⌋ = 0` — the `f32` multiplication rounds `1 - 2⁻²⁵` up to
`1.0` before the truncating `as u8` cast, so the output alpha is not
`floor(a * o)`. -/
theorem C3_floor_alpha_counterexample :
    (0 : ℚ) ≤ oW ∧ oW ≤ 1 ∧ roundF32 oW = oW ∧
    transformPixels [⟨10, 20, 30, 31⟩] oW = [10, 20, 30, 1] ∧
    ⌊(31 : ℚ) * oW⌋ = 0 ∧
    alphaTransform 31 oW ≠ (⌊(31 : ℚ) * oW⌋).toNat := by
  refine ⟨by norm_num [oW], by norm_num [oW], roundF32_oW, ?_, floor_31_oW, ?_⟩
  · show [10, 20, 30, alphaTransform 31 oW] = [10, 20, 30, 1]
    rw [alphaTransform_31_oW]
  · rw [alphaTransform_31_oW, floor_31_oW]
    decide

/-- C3 (amended): the pixel transform passes the three color channels of
every pixel through unchanged and replaces the alpha channel by the
truncating `u8` cast of the `f32` product of source alpha and opacity —
which equals `floor(a * o)` except when the `f32` rounding of `a * o`
crosses an integer boundary (`C3_floor_alpha_counterexample`). -/
theorem C3_pixel_transform (ps : List Pixel) (o : ℚ) (i : ℕ) :
    (transformPixels ps o).length = 4 * ps.length ∧
    (transformPixels ps o)[4 * i]? = ps[i]?.map Pixel.r ∧
    (transformPixels ps o)[4 * i + 1]? = ps[i]?.map Pixel.g ∧
    (transformPixels ps o)[4 * i + 2]? = ps[i]?.map Pixel.b ∧
    (transformPixels ps o)[4 * i + 3]?
        = ps[i]?.map (fun p => u8OfF32 (roundF32 ((p.a : ℚ) * o))) := by
  induction ps generalizing i with
  | nil => refine ⟨rfl, ?_, ?_, ?_, ?_⟩ <;> simp [transformPixels]
  | cons p ps ih =>
      have hcons : transformPixels (p :: ps) o
          = p.r :: p.g :: p.b :: alphaTransform p.a o :: transformPixels ps o := by
        simp [transformPixels]
      cases i with
      | zero =>
          refine ⟨?_, ?_, ?_, ?_, ?_⟩
          · rw [hcons]
            simp only [List.length_cons, (ih 0).1]
            omega
          · simp [hcons]
          · simp [hcons]
          · simp [hcons]
          · simp [hcons, alphaTransform]
      | succ i =>
          obtain ⟨hlen, h0, h1, h2, h3⟩ := ih i
          refine ⟨?_, ?_, ?_, ?_, ?_⟩
          · rw [hcons]
            simp only [List.length_cons, hlen]
            omega
          · rw [show 4 * (i + 1) = 4 * i + 3 + 1 by ring, hcons]
            simpa using h0
          · rw [show 4 * (i + 1) + 1 = 4 * i + 3 + 1 + 1 by ring, hcons]
            simpa using h1
          · rw [show 4 * (i + 1) + 2 = 4 * i + 3 + 1 + 2 by ring, hcons]
            simpa using h2
          · rw [show 4 * (i + 1) + 3 = 4 * i + 3 + 1 + 3 by ring, hcons]
            simpa using h3
